import Mathlib

set_option maxRecDepth 8000

/-!
Verification development for the BC3 import wizard
(`bc3_importer/wizard/bc3_import_wizard.py`).

The development shallowly embeds the wizard's pipeline:

* a model of the Python primitives the source relies on
  (`str.strip`, `str.split`, `str.replace`, `str.splitlines`,
  `bytes.decode` for windows-1252 and utf-8, and `float(str)`),
* the concept extractor `_prepare_concepts_dict`,
* the decoding step of `_get_data_from_file`,
* the catalog / order side of `_prepare_sale_order_line_from_concept`,
  `_prepare_sale_order_vals`, `_create_sale_order_and_lines` and
  `action_import`, with the host database modelled as explicit state.

Numbers parsed by Python's `float` are modelled as exact rationals,
plus infinity and nan markers.  Overflow is modelled: a numeral whose
value reaches the IEEE double rounding boundary 2 ^ 970 * (2 ^ 54 - 1)
parses to an infinity, exactly as Python's float() does (for example
float of four hundred nines is inf).  Rounding inside the finite
double range (including underflow to zero) is not modelled: it never
crosses the finite / infinite / nan boundary, and every concrete price
in a statement below is a short decimal that is exactly representable,
so no stated value is changed by it.  The digit set is modelled as the
ASCII digits (Python additionally accepts non-ASCII unicode decimal
digits; no claim touches those).
-/

deriving instance DecidableEq for Except

namespace BC3Import

/-! ### Python string primitives -/

/-- Characters for which Python's `str.isspace` holds; this is the set
stripped by `str.strip()` and by `float(str)`. -/
def isPySpace (c : Char) : Bool :=
  decide (c.toNat ∈ [0x09, 0x0A, 0x0B, 0x0C, 0x0D, 0x1C, 0x1D, 0x1E, 0x1F,
    0x20, 0x85, 0xA0, 0x1680, 0x2000, 0x2001, 0x2002, 0x2003, 0x2004,
    0x2005, 0x2006, 0x2007, 0x2008, 0x2009, 0x200A, 0x2028, 0x2029,
    0x202F, 0x205F, 0x3000])

/-- Model of Python `str.strip()` on a character list: drop leading and
trailing whitespace. -/
def stripSpaces (cs : List Char) : List Char :=
  ((cs.dropWhile isPySpace).reverse.dropWhile isPySpace).reverse

/-- Model of Python `str.strip()`. -/
def pyStrip (s : String) : String :=
  String.mk (stripSpaces s.data)

/-- Model of Python `str.split(d)` for a one-character delimiter: the
result always has one more field than there are delimiters; splitting
the empty string gives one empty field. -/
def splitOnChar (d : Char) : List Char → List (List Char)
  | [] => [[]]
  | c :: rest =>
    match splitOnChar d rest with
    | [] => [[]]
    | f :: fs => if c = d then [] :: f :: fs else (c :: f) :: fs

/-- Model of Python `price_str.replace(",", ".")`: every comma becomes a
dot (single-character replace is a character map). -/
def commaToDot (s : String) : String :=
  String.mk (s.data.map (fun c => if c = ',' then '.' else c))

/-! ### Model of Python `float(str)` -/

/-- Value produced by a successful Python `float(str)` call: a finite
rational (exact decimal value), a signed infinity, or nan. -/
inductive PyFloat where
  | finite (val : ℚ)
  | inf (neg : Bool)
  | nan
deriving DecidableEq, Repr

/-- ASCII decimal digit test. -/
def isDig (c : Char) : Bool :=
  decide (48 ≤ c.toNat ∧ c.toNat ≤ 57)

/-- Numeric value of an ASCII digit. -/
def digitVal (c : Char) : Nat := c.toNat - 48

/-- True when the list starts with an ASCII digit. -/
def headIsDig : List Char → Bool
  | c :: _ => isDig c
  | [] => false

/-- Worker for `digitRun`; the flag records whether the previous
character was a digit, which is what allows a single separating
underscore (PEP 515: an underscore must sit between two digits). -/
def digitRunAux : Bool → List Char → List Char × List Char
  | _, [] => ([], [])
  | prevDigit, c :: rest =>
    if isDig c then
      let p := digitRunAux true rest
      (c :: p.1, p.2)
    else if prevDigit = true ∧ c = '_' ∧ headIsDig rest = true then
      digitRunAux false rest
    else ([], c :: rest)

/-- Consume a maximal run of digits possibly separated by single
underscores.  Returns the digits (underscores removed) and the
unconsumed rest. -/
def digitRun (cs : List Char) : List Char × List Char :=
  digitRunAux false cs

/-- Value of a digit list read in base 10. -/
def digitsToNat (ds : List Char) : Nat :=
  ds.foldl (fun a c => 10 * a + digitVal c) 0

/-- Consume an optional leading sign; the boolean is true for a minus. -/
def parseSign (cs : List Char) : Bool × List Char :=
  match cs with
  | c :: r => if c = '+' then (false, r) else if c = '-' then (true, r) else (false, cs)
  | [] => (false, cs)

/-- Parse the mantissa part of a float literal: `digits`, `digits.`,
`digits.digits` or `.digits`; at least one digit must be present.
Returns the integer digits, the fraction digits and the rest. -/
def parseMantissa (cs : List Char) :
    Option ((List Char × List Char) × List Char) :=
  let ipr := digitRun cs
  match ipr.2 with
  | '.' :: r2 =>
    let fpr := digitRun r2
    if ipr.1 = [] ∧ fpr.1 = [] then none
    else some ((ipr.1, fpr.1), fpr.2)
  | _ =>
    if ipr.1 = [] then none else some ((ipr.1, []), ipr.2)

/-- Exact rational value of a decimal literal with integer digits `ip`,
fraction digits `fp` and signed power-of-ten exponent: the value of
the digit string `ip ++ fp` divided by ten to the fraction length,
scaled by the exponent. -/
def decimalValue (ip fp : List Char) (expNeg : Bool) (e : Nat) : ℚ :=
  if expNeg then
    mkRat (digitsToNat (ip ++ fp)) (10 ^ (fp.length + e))
  else
    mkRat (digitsToNat (ip ++ fp) * 10 ^ e) (10 ^ fp.length)

/-- Parse a full finite float literal (mantissa plus optional exponent);
the whole input must be consumed. -/
def parseFinite (cs : List Char) : Option ℚ :=
  match parseMantissa cs with
  | none => none
  | some (mant, rest) =>
    match rest with
    | [] => some (decimalValue mant.1 mant.2 false 0)
    | e :: r1 =>
      if e = 'e' ∨ e = 'E' then
        let sr := parseSign r1
        let dr := digitRun sr.2
        if dr.1 = [] ∨ dr.2 ≠ [] then none
        else some (decimalValue mant.1 mant.2 sr.1 (digitsToNat dr.1))
      else none

/-- Lower-case an ASCII letter, leave every other character unchanged
(used for the case-insensitive `inf` / `infinity` / `nan` match). -/
def asciiLower (c : Char) : Char :=
  if 65 ≤ c.toNat ∧ c.toNat ≤ 90 then Char.ofNat (c.toNat + 32) else c

/-- Magnitude at which Python float parsing overflows: a decimal value
whose magnitude is at least 2 ^ 970 * (2 ^ 54 - 1) — the midpoint
between the largest finite IEEE double and 2 ^ 1024 — rounds to
infinity under round-to-nearest-even, and float(str) returns an
infinity for it rather than raising. -/
def overflowBoundN : ℕ := 2 ^ 970 * (2 ^ 54 - 1)

/-- The overflow threshold as an exact rational. -/
def overflowBound : ℚ := mkRat (overflowBoundN : ℤ) 1

/-- Model of Python `float(str)`: strip whitespace, read an optional
sign, accept `inf` / `infinity` / `nan` case-insensitively, otherwise
parse a decimal literal, overflowing to a signed infinity at the IEEE
double boundary; `none` models a raised `ValueError`. -/
def pyFloat (s : String) : Option PyFloat :=
  let cs := stripSpaces s.data
  if cs = [] then none
  else
    let sr := parseSign cs
    let low := sr.2.map asciiLower
    if low = "inf".data ∨ low = "infinity".data then some (.inf sr.1)
    else if low = "nan".data then some .nan
    else
      match parseFinite sr.2 with
      | none => none
      | some q =>
        if overflowBound ≤ q then some (.inf sr.1)
        else some (.finite (if sr.1 then -q else q))

/-- Price of one concept line, as computed by
`float(price_str.replace(",", ".")) if price_str else 0.0`;
`none` models the `ValueError` caught by the extractor. -/
def parsedPrice (price_str : String) : Option PyFloat :=
  if price_str = "" then some (.finite 0)
  else pyFloat (commaToDot price_str)

/-- Classification of a parsed price as a finite non-negative number. -/
def isNonNegFinite : PyFloat → Bool
  | .finite q => decide (0 ≤ q)
  | .inf _ => false
  | .nan => false

/-- ASCII letter test. -/
def isAsciiAlpha (c : Char) : Bool :=
  decide ((65 ≤ c.toNat ∧ c.toNat ≤ 90) ∨ (97 ≤ c.toNat ∧ c.toNat ≤ 122))

/-- Benign price field: no minus sign and no letter.  Such a field can
neither carry a negative sign nor spell an infinity or nan literal, so
a successful parse of it is a finite non-negative number. -/
def priceFieldOk (s : String) : Bool :=
  s.data.all (fun c => !(c == '-') && !(isAsciiAlpha c))

/-! ### Concept extractor (`_prepare_concepts_dict`) -/

/-- One extracted concept, the value stored under `concepts[code]`.
Field names and order follow the dict literal in the source. -/
structure Concept where
  description : String
  uom : String
  price : PyFloat
  quantity : ℚ
  version_id : Nat
deriving DecidableEq, Repr

/-- Per-line diagnostics emitted through the logger: `warning` for a
line with fewer than four fields, `error` for a line whose price raised
`ValueError`.  Each carries the (stripped) offending line. -/
inductive Diag where
  | warning (line : String)
  | error (line : String)
deriving DecidableEq, Repr

/-- Extraction state: the concepts dict (as an association list mirroring
Python dict insertion order) and the diagnostics log. -/
structure ExtractState where
  concepts : List (String × Concept)
  diags : List Diag
deriving DecidableEq, Repr

/-- Python dict assignment `d[k] = v`: overwrite in place when the key
is present (keys are unique by construction), append otherwise. -/
def dictInsert : List (String × Concept) → String → Concept →
    List (String × Concept)
  | [], k, v => [(k, v)]
  | a :: d, k, v => if a.1 = k then (k, v) :: d else a :: dictInsert d k v

/-- Python dict lookup `d[k]` as an option. -/
def dictGet (d : List (String × Concept)) (k : String) : Option Concept :=
  (d.find? (fun kv => kv.1 == k)).map Prod.snd

/-- One iteration of the extraction loop of `_prepare_concepts_dict`:
strip the raw line, require the `~C|` marker, drop the three marker
characters, split on `|`; with at least four fields and a non-empty
code, parse the price and insert the concept; otherwise skip, logging
a warning (too few fields) or an error (unparseable price). -/
def processLine (versionId : Nat) (st : ExtractState) (line_raw : String) :
    ExtractState :=
  let line := pyStrip line_raw
  if line.data.take 3 = ['~', 'C', '|'] then
    let parts := (splitOnChar '|' (line.data.drop 3)).map String.mk
    if 4 ≤ parts.length then
      let code := parts.getD 0 ""
      if code = "" then st
      else
        match parsedPrice (parts.getD 3 "") with
        | some price =>
          let con : Concept :=
            ⟨parts.getD 2 "", parts.getD 1 "", price, 1, versionId⟩
          { st with concepts := dictInsert st.concepts code con }
        | none => { st with diags := st.diags ++ [Diag.error line] }
    else { st with diags := st.diags ++ [Diag.warning line] }
  else st

/-- Run the extraction loop from a given state. -/
def extractFrom (versionId : Nat) (init : ExtractState)
    (lines : List String) : ExtractState :=
  lines.foldl (processLine versionId) init

/-- Full extraction state produced by `_prepare_concepts_dict`. -/
def extractConcepts (lines : List String) (versionId : Nat) : ExtractState :=
  extractFrom versionId ⟨[], []⟩ lines

/-- Return value of `_prepare_concepts_dict`: the concepts dict. -/
def prepareConceptsDict (lines : List String) (versionId : Nat) :
    List (String × Concept) :=
  (extractConcepts lines versionId).concepts

/-- Fields of a line as the extractor sees them: strip the whole line,
drop the three marker characters, split on `|`. -/
def lineParts (line_raw : String) : List String :=
  (splitOnChar '|' ((pyStrip line_raw).data.drop 3)).map String.mk

/-- The insertion (key and concept) a line performs, if any: `none` for
non-marker lines, short lines, empty-code lines and price errors.  This
mirrors `processLine` branch for branch. -/
def conceptOfLine (line_raw : String) (versionId : Nat) :
    Option (String × Concept) :=
  let line := pyStrip line_raw
  if line.data.take 3 = ['~', 'C', '|'] then
    let parts := (splitOnChar '|' (line.data.drop 3)).map String.mk
    if 4 ≤ parts.length then
      let code := parts.getD 0 ""
      if code = "" then none
      else
        match parsedPrice (parts.getD 3 "") with
        | some price =>
          let con : Concept :=
            ⟨parts.getD 2 "", parts.getD 1 "", price, 1, versionId⟩
          some (code, con)
        | none => none
    else none
  else none

/-- Concepts component of the state after one line, as a function of the
insertion the line performs. -/
def conceptsAfter (st : ExtractState) (o : Option (String × Concept)) :
    List (String × Concept) :=
  match o with
  | some kv => dictInsert st.concepts kv.1 kv.2
  | none => st.concepts

/-! ### Decoder (`_get_data_from_file`) -/

/-- Unicode code point for the bytes 0x80 to 0x9F of windows-1252; the
five bytes 0x81, 0x8D, 0x8F, 0x90 and 0x9D are undefined and make the
decode raise `UnicodeDecodeError`. -/
def cp1252Special (b : Nat) : Option Nat :=
  match b with
  | 0x80 => some 0x20AC
  | 0x82 => some 0x201A
  | 0x83 => some 0x0192
  | 0x84 => some 0x201E
  | 0x85 => some 0x2026
  | 0x86 => some 0x2020
  | 0x87 => some 0x2021
  | 0x88 => some 0x02C6
  | 0x89 => some 0x2030
  | 0x8A => some 0x0160
  | 0x8B => some 0x2039
  | 0x8C => some 0x0152
  | 0x8E => some 0x017D
  | 0x91 => some 0x2018
  | 0x92 => some 0x2019
  | 0x93 => some 0x201C
  | 0x94 => some 0x201D
  | 0x95 => some 0x2022
  | 0x96 => some 0x2013
  | 0x97 => some 0x2014
  | 0x98 => some 0x02DC
  | 0x99 => some 0x2122
  | 0x9A => some 0x0161
  | 0x9B => some 0x203A
  | 0x9C => some 0x0153
  | 0x9E => some 0x017E
  | 0x9F => some 0x0178
  | _ => none

/-- Decode one byte under windows-1252: 0x00 to 0x7F and 0xA0 to 0xFF
map to the code point of the same value, 0x80 to 0x9F go through the
special table. -/
def cp1252Char (b : Nat) : Option Char :=
  if b ≤ 0x7F then some (Char.ofNat b)
  else if 0xA0 ≤ b ∧ b ≤ 0xFF then some (Char.ofNat b)
  else (cp1252Special b).map Char.ofNat

/-- Model of `data.decode('windows-1252')`: byte-wise table decode,
failing on any undefined byte. -/
def decodeWindows1252 : List Nat → Option (List Char)
  | [] => some []
  | b :: rest =>
    match cp1252Char b, decodeWindows1252 rest with
    | some c, some cs => some (c :: cs)
    | _, _ => none

/-- Model of strict `data.decode('utf-8')`: rejects stray continuation
bytes, overlong forms, surrogate code points and values above
U+10FFFF, exactly as Python's strict utf-8 codec does. -/
def decodeUtf8 : List Nat → Option (List Char)
  | [] => some []
  | b :: rest =>
    if b ≤ 0x7F then
      (decodeUtf8 rest).map (fun cs => Char.ofNat b :: cs)
    else if 0xC2 ≤ b ∧ b ≤ 0xDF then
      match rest with
      | b2 :: rest2 =>
        if 0x80 ≤ b2 ∧ b2 ≤ 0xBF then
          (decodeUtf8 rest2).map
            (fun cs => Char.ofNat ((b - 0xC0) * 0x40 + (b2 - 0x80)) :: cs)
        else none
      | [] => none
    else if 0xE0 ≤ b ∧ b ≤ 0xEF then
      match rest with
      | b2 :: b3 :: rest2 =>
        if (0x80 ≤ b2 ∧ b2 ≤ 0xBF) ∧ (0x80 ≤ b3 ∧ b3 ≤ 0xBF)
            ∧ (b = 0xE0 → 0xA0 ≤ b2) ∧ (b = 0xED → b2 ≤ 0x9F) then
          (decodeUtf8 rest2).map (fun cs =>
            Char.ofNat ((b - 0xE0) * 0x1000 + (b2 - 0x80) * 0x40
              + (b3 - 0x80)) :: cs)
        else none
      | _ => none
    else if 0xF0 ≤ b ∧ b ≤ 0xF4 then
      match rest with
      | b2 :: b3 :: b4 :: rest2 =>
        if (0x80 ≤ b2 ∧ b2 ≤ 0xBF) ∧ (0x80 ≤ b3 ∧ b3 ≤ 0xBF)
            ∧ (0x80 ≤ b4 ∧ b4 ≤ 0xBF)
            ∧ (b = 0xF0 → 0x90 ≤ b2) ∧ (b = 0xF4 → b2 ≤ 0x8F) then
          (decodeUtf8 rest2).map (fun cs =>
            Char.ofNat ((b - 0xF0) * 0x40000 + (b2 - 0x80) * 0x1000
              + (b3 - 0x80) * 0x40 + (b4 - 0x80)) :: cs)
        else none
      | _ => none
    else none

/-- Characters on which Python `str.splitlines` breaks a line. -/
def isLineBreak (c : Char) : Bool :=
  decide (c.toNat ∈ [0x0A, 0x0B, 0x0C, 0x0D, 0x1C, 0x1D, 0x1E, 0x85,
    0x2028, 0x2029])

/-- Worker for `pySplitlines`; the accumulator holds the current line
reversed.  A `\r\n` pair counts as a single break; a break at the end
of input does not open a final empty line. -/
def splitlinesAux : List Char → List Char → List (List Char)
  | acc, [] => if acc = [] then [] else [acc.reverse]
  | acc, '\r' :: '\n' :: rest => acc.reverse :: splitlinesAux [] rest
  | acc, c :: rest =>
    if isLineBreak c then acc.reverse :: splitlinesAux [] rest
    else splitlinesAux (c :: acc) rest

/-- Model of Python `str.splitlines()`. -/
def pySplitlines (cs : List Char) : List String :=
  (splitlinesAux [] cs).map String.mk

/-- Fatal import failures surfaced as `UserError` by the wizard. -/
inductive ImportError where
  | missingInput
  | decodingError
  | noValidData
deriving DecidableEq, Repr

/-- Decoding step of `_get_data_from_file`: try windows-1252 first,
utf-8 only when windows-1252 raised, raise `decodingError` when both
fail; on success split the text into lines. -/
def decode (data : List Nat) : Except ImportError (List String) :=
  match decodeWindows1252 data with
  | some text => .ok (pySplitlines text)
  | none =>
    match decodeUtf8 data with
    | some text => .ok (pySplitlines text)
    | none => .error .decodingError

/-! ### Host records and catalog reconciliation -/

/-- Unit-of-measure record (`uom.uom`), reduced to the fields read. -/
structure UomRec where
  id : Nat
  name : String
deriving DecidableEq, Repr

/-- Product record (`product.product`), reduced to the fields written
or read by the wizard. -/
structure ProductRec where
  id : Nat
  name : String
  default_code : String
  type : String
  uom_id : Nat
  uom_po_id : Nat
  list_price : PyFloat
deriving DecidableEq, Repr

/-- Version record (`bc3.version`). -/
structure VersionRec where
  id : Nat
  name : String
deriving DecidableEq, Repr

/-- Sale order record, reduced to the fields the wizard sets. -/
structure OrderRec where
  id : Nat
  name : String
  bc3_version_id : Nat
deriving DecidableEq, Repr

/-- Values dict returned by `_prepare_sale_order_line_from_concept`. -/
structure SaleOrderLineVals where
  order_id : Nat
  product_id : Nat
  product_uom_qty : ℚ
  price_unit : PyFloat
  name : String
  product_uom : Nat
deriving DecidableEq, Repr

/-- Values dict returned by `_prepare_sale_order_vals`. -/
structure SaleOrderVals where
  name : String
  bc3_version_id : Nat
deriving DecidableEq, Repr

/-- Host database state threaded through the wizard: the record lists
the wizard searches or creates, the id of the `uom.product_uom_unit`
reference, and a fresh-id counter modelling record creation. -/
structure DB where
  uoms : List UomRec
  defaultUomId : Nat
  products : List ProductRec
  versions : List VersionRec
  orders : List OrderRec
  orderLines : List SaleOrderLineVals
  nextId : Nat
deriving DecidableEq, Repr

/-- Wizard fields: `bc3_file` is the uploaded payload (already
base64-decoded; `none` models the unset binary field) and
`bc3_filename` the optional filename. -/
structure Wizard where
  bc3_file : Option (List Nat)
  bc3_filename : Option String
deriving DecidableEq, Repr

/-- Python `x or default` for an optional string field: `None` and the
empty string are falsy. -/
def orFalsy (s : Option String) (d : String) : String :=
  match s with
  | some v => if v = "" then d else v
  | none => d

/-- Model of `_get_data_from_file`: `raise UserError` when the binary
field is falsy (unset, or an empty payload, since Odoo stores the file
as a base64 string and the empty payload is the empty string), then
decode.  The base64 transport itself is external to this model. -/
def getDataFromFile (w : Wizard) : Except ImportError (List String) :=
  match w.bc3_file with
  | none => .error .missingInput
  | some data => if data = [] then .error .missingInput else decode data

/-- Unit-of-measure resolution of `_prepare_sale_order_line_from_concept`:
`search([("name", "=", concept["uom"])], limit=1)` with fallback to the
`uom.product_uom_unit` reference; no unit is ever created. -/
def resolvedUomId (db : DB) (uomName : String) : Nat :=
  match db.uoms.find? (fun u => u.name == uomName) with
  | some u => u.id
  | none => db.defaultUomId

/-- Model of `_prepare_sale_order_line_from_concept`: resolve the unit
of measure by exact name with fallback to the default unit (never
creating one), then resolve the product by `default_code` equal to the
concept description, creating a service product on a miss; return the
updated database and the line values. -/
def prepareSaleOrderLineFromConcept (db : DB) (concept : Concept)
    (saleOrderId : Nat) : DB × SaleOrderLineVals :=
  let product_uom := resolvedUomId db concept.uom
  match db.products.find? (fun p => p.default_code == concept.description) with
  | some p =>
    (db, ⟨saleOrderId, p.id, concept.quantity, concept.price,
      concept.description, product_uom⟩)
  | none =>
    let newProduct : ProductRec :=
      ⟨db.nextId, concept.description, concept.description, "service",
        product_uom, product_uom, concept.price⟩
    let dbNew : DB := { db with
      products := db.products ++ [newProduct]
      nextId := db.nextId + 1 }
    (dbNew,
      ⟨saleOrderId, newProduct.id, concept.quantity, concept.price,
        concept.description, product_uom⟩)

/-- Model of `_prepare_sale_order_vals`. -/
def prepareSaleOrderVals (w : Wizard) (versionId : Nat) : SaleOrderVals :=
  ⟨orFalsy w.bc3_filename "Imported BC3", versionId⟩

/-- Model of `_create_sale_order_and_lines`: raise `noValidData` on an
empty concepts dict before anything is created; otherwise create the
order header, build one line values dict per concept (in dict order),
and create all lines in one batch. -/
def createSaleOrderAndLines (db : DB) (w : Wizard)
    (concepts : List (String × Concept)) (versionId : Nat) :
    Except ImportError (DB × Nat) :=
  if concepts = [] then .error .noValidData
  else
    let vals := prepareSaleOrderVals w versionId
    let orderId := db.nextId
    let db1 : DB := { db with
      orders := db.orders ++ [⟨orderId, vals.name, vals.bc3_version_id⟩]
      nextId := db.nextId + 1 }
    let step := fun (acc : DB × List SaleOrderLineVals)
        (kv : String × Concept) =>
      let r := prepareSaleOrderLineFromConcept acc.1 kv.2 orderId
      (r.1, acc.2 ++ [r.2])
    let folded := concepts.foldl step (db1, [])
    let db2 :=
      if folded.2 ≠ [] then
        { folded.1 with orderLines := folded.1.orderLines ++ folded.2 }
      else folded.1
    .ok (db2, orderId)

/-- Model of `action_import`.  The source creates the `bc3.version`
record first, then reads the file, extracts the concepts and creates
the order.  An error result carries the database as mutated up to the
raise (in the host, the surrounding transaction then rolls the
mutations back; that rollback is external to this core). -/
def actionImport (db : DB) (w : Wizard) :
    Except (ImportError × DB) (DB × Nat) :=
  let versionId := db.nextId
  let db1 : DB := { db with
    versions := db.versions ++ [⟨versionId, orFalsy w.bc3_filename "BC3 Import"⟩]
    nextId := db.nextId + 1 }
  match getDataFromFile w with
  | .error e => .error (e, db1)
  | .ok lines =>
    let concepts := prepareConceptsDict lines versionId
    match createSaleOrderAndLines db1 w concepts versionId with
    | .error e => .error (e, db1)
    | .ok r => .ok r

/-! ### Dictionary lemmas -/

lemma dictGet_nil (k : String) : dictGet [] k = none := rfl

lemma dictGet_cons (a : String × Concept) (d : List (String × Concept))
    (k : String) :
    dictGet (a :: d) k = if a.1 = k then some a.2 else dictGet d k := by
  by_cases h : a.1 = k
  · rw [dictGet, List.find?_cons_of_pos _ (by simp [h]), if_pos h]
    rfl
  · rw [dictGet, List.find?_cons_of_neg _ (by simp [h]), if_neg h]
    rfl

lemma dictGet_dictInsert_self (d : List (String × Concept)) (k : String)
    (v : Concept) : dictGet (dictInsert d k v) k = some v := by
  induction d with
  | nil => simp [dictInsert, dictGet_cons]
  | cons a d ih =>
    rw [dictInsert]
    by_cases h : a.1 = k
    · rw [if_pos h, dictGet_cons]
      simp
    · rw [if_neg h, dictGet_cons, if_neg h]
      exact ih

lemma dictGet_dictInsert_ne (d : List (String × Concept)) {k k' : String}
    (v : Concept) (hne : k' ≠ k) :
    dictGet (dictInsert d k' v) k = dictGet d k := by
  induction d with
  | nil => simp [dictInsert, dictGet_cons, hne]
  | cons a d ih =>
    rw [dictInsert]
    by_cases h : a.1 = k'
    · rw [if_pos h, dictGet_cons, dictGet_cons, if_neg hne, h, if_neg hne]
    · rw [if_neg h, dictGet_cons, dictGet_cons]
      by_cases hak : a.1 = k
      · rw [if_pos hak, if_pos hak]
      · rw [if_neg hak, if_neg hak]
        exact ih

lemma mem_dictInsert {d : List (String × Concept)} {k : String}
    {v : Concept} {kc : String × Concept} (h : kc ∈ dictInsert d k v) :
    kc ∈ d ∨ kc = (k, v) := by
  induction d with
  | nil =>
    rw [dictInsert, List.mem_singleton] at h
    exact Or.inr h
  | cons a d ih =>
    rw [dictInsert] at h
    by_cases hak : a.1 = k
    · rw [if_pos hak, List.mem_cons] at h
      rcases h with h | h
      · exact Or.inr h
      · exact Or.inl (List.mem_cons_of_mem a h)
    · rw [if_neg hak, List.mem_cons] at h
      rcases h with h | h
      · exact Or.inl (h ▸ List.mem_cons_self a d)
      · rcases ih h with h' | h'
        · exact Or.inl (List.mem_cons_of_mem a h')
        · exact Or.inr h'

lemma map_fst_dictInsert (d : List (String × Concept)) (k : String)
    (v : Concept) :
    (dictInsert d k v).map Prod.fst =
      if k ∈ d.map Prod.fst then d.map Prod.fst
      else d.map Prod.fst ++ [k] := by
  induction d with
  | nil => simp [dictInsert]
  | cons a d ih =>
    rw [dictInsert]
    by_cases h : a.1 = k
    · rw [if_pos h]
      simp [h]
    · rw [if_neg h, List.map_cons, ih, List.map_cons]
      by_cases hm : k ∈ d.map Prod.fst
      · rw [if_pos hm, if_pos (by simp [hm])]
      · have hnotin : k ∉ a.1 :: d.map Prod.fst := by
          simp only [List.mem_cons]
          rintro (hh | hh)
          · exact h hh.symm
          · exact hm hh
        rw [if_neg hm, if_neg hnotin, List.cons_append]

lemma nodup_map_fst_dictInsert {d : List (String × Concept)} {k : String}
    {v : Concept} (h : (d.map Prod.fst).Nodup) :
    ((dictInsert d k v).map Prod.fst).Nodup := by
  rw [map_fst_dictInsert]
  by_cases hm : k ∈ d.map Prod.fst
  · rwa [if_pos hm]
  · rw [if_neg hm, List.nodup_append]
    exact ⟨h, List.nodup_singleton k, by
      intro a ha hb
      rw [List.mem_singleton] at hb
      exact hm (hb ▸ ha)⟩

/-! ### Extraction lemmas -/

lemma processLine_concepts (versionId : Nat) (st : ExtractState)
    (l : String) :
    (processLine versionId st l).concepts =
      conceptsAfter st (conceptOfLine l versionId) := by
  simp only [processLine, conceptOfLine]
  by_cases h1 : (pyStrip l).data.take 3 = ['~', 'C', '|']
  · simp only [if_pos h1]
    by_cases h2 :
        4 ≤ ((splitOnChar '|' ((pyStrip l).data.drop 3)).map String.mk).length
    · simp only [if_pos h2]
      by_cases h3 :
          ((splitOnChar '|' ((pyStrip l).data.drop 3)).map String.mk).getD 0 ""
            = ""
      · simp only [if_pos h3]
        rfl
      · simp only [if_neg h3]
        rcases hp : parsedPrice
            (((splitOnChar '|' ((pyStrip l).data.drop 3)).map
              String.mk).getD 3 "") with _ | price
        · simp only [hp]
          rfl
        · simp only [hp]
          rfl
    · simp only [if_neg h2]
      rfl
  · simp only [if_neg h1]
    rfl

lemma processLine_concepts_of_none {versionId : Nat} {l : String}
    (h : conceptOfLine l versionId = none) (st : ExtractState) :
    (processLine versionId st l).concepts = st.concepts := by
  rw [processLine_concepts, h]
  rfl

lemma processLine_concepts_of_some {versionId : Nat} {l : String}
    {k : String} {v : Concept}
    (h : conceptOfLine l versionId = some (k, v)) (st : ExtractState) :
    (processLine versionId st l).concepts = dictInsert st.concepts k v := by
  rw [processLine_concepts, h]
  rfl

lemma extractFrom_cons (versionId : Nat) (init : ExtractState) (l : String)
    (lines : List String) :
    extractFrom versionId init (l :: lines) =
      extractFrom versionId (processLine versionId init l) lines := rfl

lemma extractFrom_append (versionId : Nat) (init : ExtractState)
    (lines₁ lines₂ : List String) :
    extractFrom versionId init (lines₁ ++ lines₂) =
      extractFrom versionId (extractFrom versionId init lines₁) lines₂ :=
  List.foldl_append _ _ _ _

lemma nodup_keys_extractFrom (versionId : Nat) (lines : List String)
    (init : ExtractState) (h : (init.concepts.map Prod.fst).Nodup) :
    (((extractFrom versionId init lines).concepts).map Prod.fst).Nodup := by
  induction lines generalizing init with
  | nil => exact h
  | cons l lines ih =>
    rw [extractFrom_cons]
    refine ih _ ?_
    rw [processLine_concepts]
    rcases hc : conceptOfLine l versionId with _ | ⟨k, v⟩
    · exact h
    · exact nodup_map_fst_dictInsert h

lemma extractFrom_invariant (P : String × Concept → Prop) (versionId : Nat)
    (lines : List String) (init : ExtractState)
    (hinit : ∀ kc ∈ init.concepts, P kc)
    (hline : ∀ l ∈ lines, ∀ kv, conceptOfLine l versionId = some kv → P kv) :
    ∀ kc ∈ (extractFrom versionId init lines).concepts, P kc := by
  induction lines generalizing init with
  | nil => exact hinit
  | cons l lines ih =>
    rw [extractFrom_cons]
    refine ih _ ?_ ?_
    · intro kc hkc
      rw [processLine_concepts] at hkc
      rcases hc : conceptOfLine l versionId with _ | ⟨k, v⟩
      · rw [hc] at hkc
        exact hinit kc hkc
      · rw [hc] at hkc
        rcases mem_dictInsert hkc with h' | h'
        · exact hinit kc h'
        · exact h' ▸ hline l (List.mem_cons_self _ _) (k, v) hc
    · intro l' hl' kv hkv
      exact hline l' (List.mem_cons_of_mem _ hl') kv hkv

lemma dictGet_extractFrom_stable (versionId : Nat) (c : String)
    (lines : List String) (init : ExtractState)
    (h : ∀ l ∈ lines, (conceptOfLine l versionId).map Prod.fst ≠ some c) :
    dictGet (extractFrom versionId init lines).concepts c =
      dictGet init.concepts c := by
  induction lines generalizing init with
  | nil => rfl
  | cons l lines ih =>
    rw [extractFrom_cons,
      ih _ (fun l' hl' => h l' (List.mem_cons_of_mem _ hl'))]
    rw [processLine_concepts]
    rcases hc : conceptOfLine l versionId with _ | ⟨k, v⟩
    · rfl
    · have hk : k ≠ c := by
        intro hkc
        exact h l (List.mem_cons_self _ _) (by rw [hc, hkc]; rfl)
      exact dictGet_dictInsert_ne _ _ hk

/-! ### Float parsing lemmas -/

lemma decimalValue_nonneg (ip fp : List Char) (neg : Bool) (e : Nat) :
    0 ≤ decimalValue ip fp neg e := by
  unfold decimalValue
  split
  · rw [Rat.mkRat_eq_div]
    positivity
  · rw [Rat.mkRat_eq_div]
    positivity

lemma parseFinite_nonneg {cs : List Char} {q : ℚ}
    (h : parseFinite cs = some q) : 0 ≤ q := by
  simp only [parseFinite] at h
  split at h
  · exact absurd h (by simp)
  · split at h
    · rw [Option.some_inj] at h
      exact h ▸ decimalValue_nonneg _ _ _ _
    · split at h
      · split at h
        · exact absurd h (by simp)
        · rw [Option.some_inj] at h
          exact h ▸ decimalValue_nonneg _ _ _ _
      · exact absurd h (by simp)

lemma mem_stripSpaces {c : Char} {cs : List Char}
    (h : c ∈ stripSpaces cs) : c ∈ cs := by
  unfold stripSpaces at h
  rw [List.mem_reverse] at h
  have h1 := (List.dropWhile_sublist isPySpace).subset h
  rw [List.mem_reverse] at h1
  exact (List.dropWhile_sublist isPySpace).subset h1

lemma okChar_commaToDot {s : String} (h : priceFieldOk s = true) :
    ∀ c ∈ (commaToDot s).data,
      (!(c == '-') && !(isAsciiAlpha c)) = true := by
  intro c hc
  have hc' : c ∈ s.data.map (fun c => if c = ',' then '.' else c) := hc
  rw [List.mem_map] at hc'
  obtain ⟨a, ha, rfl⟩ := hc'
  rw [priceFieldOk, List.all_eq_true] at h
  by_cases hcomma : a = ','
  · rw [if_pos hcomma]
    decide
  · rw [if_neg hcomma]
    exact h a ha

lemma asciiLower_eq_self {c : Char} (h : isAsciiAlpha c = false) :
    asciiLower c = c := by
  unfold asciiLower
  rw [if_neg]
  intro hc
  exact (of_decide_eq_false h) (Or.inl hc)

lemma map_asciiLower_id {cs : List Char}
    (h : ∀ c ∈ cs, isAsciiAlpha c = false) :
    cs.map asciiLower = cs := by
  have : cs.map asciiLower = cs.map id :=
    List.map_congr_left (fun a ha => asciiLower_eq_self (h a ha))
  rw [this, List.map_id]

lemma parseSign_ok {cs : List Char}
    (h : ∀ c ∈ cs, (!(c == '-') && !(isAsciiAlpha c)) = true) :
    (parseSign cs).1 = false
      ∧ ∀ c ∈ (parseSign cs).2,
          (!(c == '-') && !(isAsciiAlpha c)) = true := by
  rcases cs with _ | ⟨c0, rest⟩
  · exact ⟨rfl, fun c hc => absurd hc (List.not_mem_nil c)⟩
  · by_cases h1 : c0 = '+'
    · subst h1
      exact ⟨rfl, fun c hc => h c (List.mem_cons_of_mem _ hc)⟩
    · by_cases h2 : c0 = '-'
      · subst h2
        exact absurd (h '-' (List.mem_cons_self _ _)) (by decide)
      · have he : parseSign (c0 :: rest) = (false, c0 :: rest) := by
          simp only [parseSign, if_neg h1, if_neg h2]
        rw [he]
        exact ⟨rfl, h⟩

lemma digitRunAux_digits (cs : List Char) (b : Bool) :
    ∀ c ∈ (digitRunAux b cs).1, isDig c = true := by
  induction cs generalizing b with
  | nil => intro c hc; cases hc
  | cons c0 rest ih =>
    intro c hc
    by_cases hd : isDig c0 = true
    · simp only [digitRunAux, if_pos hd] at hc
      rcases List.mem_cons.mp hc with h | h
      · exact h ▸ hd
      · exact ih true c h
    · simp only [digitRunAux, if_neg hd] at hc
      by_cases hu : b = true ∧ c0 = '_' ∧ headIsDig rest = true
      · rw [if_pos hu] at hc
        exact ih false c hc
      · rw [if_neg hu] at hc
        cases hc

lemma digitRunAux_sum_length (cs : List Char) (b : Bool) :
    (digitRunAux b cs).1.length + (digitRunAux b cs).2.length
      ≤ cs.length := by
  induction cs generalizing b with
  | nil => simp [digitRunAux]
  | cons c0 rest ih =>
    by_cases hd : isDig c0 = true
    · simp only [digitRunAux, if_pos hd, List.length_cons]
      have := ih true
      omega
    · simp only [digitRunAux, if_neg hd]
      by_cases hu : b = true ∧ c0 = '_' ∧ headIsDig rest = true
      · rw [if_pos hu]
        have := ih false
        simp only [List.length_cons]
        omega
      · rw [if_neg hu]
        simp

lemma digitRunAux_rest_mem (cs : List Char) (b : Bool) :
    ∀ c ∈ (digitRunAux b cs).2, c ∈ cs := by
  induction cs generalizing b with
  | nil => intro c hc; cases hc
  | cons c0 rest ih =>
    intro c hc
    by_cases hd : isDig c0 = true
    · simp only [digitRunAux, if_pos hd] at hc
      exact List.mem_cons_of_mem _ (ih true c hc)
    · simp only [digitRunAux, if_neg hd] at hc
      by_cases hu : b = true ∧ c0 = '_' ∧ headIsDig rest = true
      · rw [if_pos hu] at hc
        exact List.mem_cons_of_mem _ (ih false c hc)
      · rw [if_neg hu] at hc
        exact hc

lemma digitRun_digits (cs : List Char) :
    ∀ c ∈ (digitRun cs).1, isDig c = true :=
  digitRunAux_digits cs false

lemma digitRun_sum_length (cs : List Char) :
    (digitRun cs).1.length + (digitRun cs).2.length ≤ cs.length :=
  digitRunAux_sum_length cs false

lemma digitRun_rest_mem (cs : List Char) :
    ∀ c ∈ (digitRun cs).2, c ∈ cs :=
  digitRunAux_rest_mem cs false

lemma foldl_digits_lt (ds : List Char) :
    ∀ a : ℕ, (∀ c ∈ ds, isDig c = true) →
      ds.foldl (fun a c => 10 * a + digitVal c) a
        < (a + 1) * 10 ^ ds.length := by
  induction ds with
  | nil =>
    intro a _
    simp only [List.foldl_nil, List.length_nil, pow_zero, mul_one]
    exact Nat.lt_succ_self a
  | cons c ds ih =>
    intro a hds
    have hc : isDig c = true := hds c (List.mem_cons_self _ _)
    have hv : digitVal c ≤ 9 := by
      have h9 := of_decide_eq_true hc
      unfold digitVal
      omega
    have hstep := ih (10 * a + digitVal c)
      (fun c' hc' => hds c' (List.mem_cons_of_mem _ hc'))
    simp only [List.foldl_cons, List.length_cons]
    calc ds.foldl (fun a c => 10 * a + digitVal c) (10 * a + digitVal c)
        < (10 * a + digitVal c + 1) * 10 ^ ds.length := hstep
      _ ≤ (10 * (a + 1)) * 10 ^ ds.length :=
          Nat.mul_le_mul_right _ (by omega)
      _ = (a + 1) * 10 ^ (ds.length + 1) := by ring

lemma digitsToNat_lt {ds : List Char} (h : ∀ c ∈ ds, isDig c = true) :
    digitsToNat ds < 10 ^ ds.length := by
  have := foldl_digits_lt ds 0 h
  simpa [digitsToNat] using this

lemma stripSpaces_length_le (cs : List Char) :
    (stripSpaces cs).length ≤ cs.length := by
  unfold stripSpaces
  calc ((cs.dropWhile isPySpace).reverse.dropWhile isPySpace).reverse.length
      = ((cs.dropWhile isPySpace).reverse.dropWhile isPySpace).length :=
        List.length_reverse _
    _ ≤ (cs.dropWhile isPySpace).reverse.length :=
        (List.dropWhile_sublist _).length_le
    _ = (cs.dropWhile isPySpace).length := List.length_reverse _
    _ ≤ cs.length := (List.dropWhile_sublist _).length_le

lemma parseSign_snd_length_le (cs : List Char) :
    (parseSign cs).2.length ≤ cs.length := by
  rcases cs with _ | ⟨c0, rest⟩
  · simp [parseSign]
  · by_cases h1 : c0 = '+'
    · simp only [parseSign, if_pos h1, List.length_cons]
      omega
    · by_cases h2 : c0 = '-'
      · simp only [parseSign, if_neg h1, if_pos h2, List.length_cons]
        omega
      · simp only [parseSign, if_neg h1, if_neg h2]
        omega

lemma parseMantissa_inv {cs ip fp rest : List Char}
    (h : parseMantissa cs = some ((ip, fp), rest)) :
    (∀ c ∈ ip ++ fp, isDig c = true)
      ∧ (ip ++ fp).length ≤ cs.length
      ∧ (∀ c ∈ rest, c ∈ cs) := by
  simp only [parseMantissa] at h
  split at h
  · rename_i r2 heq
    split at h
    · exact absurd h (by simp)
    · rw [Option.some_inj] at h
      cases h
      have hsum1 := digitRun_sum_length cs
      have hsum2 := digitRun_sum_length r2
      have hlen2 : (digitRun cs).2.length = r2.length + 1 := by
        rw [heq]
        rfl
      refine ⟨?_, ?_, ?_⟩
      · intro c hc
        rcases List.mem_append.mp hc with h' | h'
        · exact digitRun_digits cs c h'
        · exact digitRun_digits r2 c h'
      · rw [List.length_append]
        omega
      · intro c hc
        have h1 : c ∈ r2 := digitRun_rest_mem r2 c hc
        have h2 : c ∈ (digitRun cs).2 := by
          rw [heq]
          exact List.mem_cons_of_mem _ h1
        exact digitRun_rest_mem cs c h2
  · split at h
    · exact absurd h (by simp)
    · rw [Option.some_inj] at h
      cases h
      have hsum := digitRun_sum_length cs
      refine ⟨?_, ?_, ?_⟩
      · intro c hc
        rw [List.append_nil] at hc
        exact digitRun_digits cs c hc
      · rw [List.append_nil]
        omega
      · exact digitRun_rest_mem cs

lemma decimalValue_zero_exp_lt {ip fp : List Char} {L : ℕ}
    (hdig : ∀ c ∈ ip ++ fp, isDig c = true)
    (hlen : (ip ++ fp).length ≤ L) :
    decimalValue ip fp false 0 < ((10 ^ L : ℕ) : ℚ) := by
  have h1 : decimalValue ip fp false 0
      = mkRat (digitsToNat (ip ++ fp) * 10 ^ 0) (10 ^ fp.length) := by
    simp [decimalValue]
  have hnum : digitsToNat (ip ++ fp) * 10 ^ 0 < 10 ^ L := by
    have hlt := digitsToNat_lt hdig
    have hm : (10 : ℕ) ^ (ip ++ fp).length ≤ 10 ^ L :=
      Nat.pow_le_pow_right (by norm_num) hlen
    simpa using lt_of_lt_of_le hlt hm
  rw [h1, Rat.mkRat_eq_div]
  have hden : (1 : ℚ) ≤ ((10 ^ fp.length : ℕ) : ℚ) := by
    exact_mod_cast Nat.one_le_iff_ne_zero.mpr (by positivity)
  calc ((digitsToNat (ip ++ fp) * 10 ^ 0 : ℕ) : ℚ) / ((10 ^ fp.length : ℕ) : ℚ)
      ≤ ((digitsToNat (ip ++ fp) * 10 ^ 0 : ℕ) : ℚ) :=
        div_le_self (by positivity) hden
    _ < ((10 ^ L : ℕ) : ℚ) := by exact_mod_cast hnum

lemma parseFinite_lt_of_no_alpha {cs : List Char} {q : ℚ}
    (hq : parseFinite cs = some q)
    (ha : ∀ c ∈ cs, isAsciiAlpha c = false) :
    q < ((10 ^ cs.length : ℕ) : ℚ) := by
  simp only [parseFinite] at hq
  split at hq
  · exact absurd hq (by simp)
  · rename_i mant rest hm
    rcases mant with ⟨mip, mfp⟩
    obtain ⟨hdig, hlen, hrest⟩ := parseMantissa_inv hm
    split at hq
    · rw [Option.some_inj] at hq
      exact hq ▸ decimalValue_zero_exp_lt hdig hlen
    · rename_i e r1
      split at hq
      · rename_i he
        exfalso
        have hecs : e ∈ cs := hrest e (List.mem_cons_self _ _)
        have hfa := ha e hecs
        rcases he with he | he <;> subst he <;> exact absurd hfa (by decide)
      · exact absurd hq (by simp)

lemma overflowBound_eq : overflowBound = ((overflowBoundN : ℕ) : ℚ) := by
  unfold overflowBound
  rw [Rat.mkRat_one]
  push_cast
  rfl

lemma pyFloat_nonneg_of_ok {s : String} {p : PyFloat}
    (hs : ∀ c ∈ s.data, (!(c == '-') && !(isAsciiAlpha c)) = true)
    (hlen308 : s.data.length ≤ 308)
    (hp : pyFloat s = some p) : isNonNegFinite p = true := by
  simp only [pyFloat] at hp
  split at hp
  · exact absurd hp (by simp)
  · have hcs : ∀ c ∈ stripSpaces s.data,
        (!(c == '-') && !(isAsciiAlpha c)) = true :=
      fun c hc => hs c (mem_stripSpaces hc)
    obtain ⟨hsign, htail⟩ := parseSign_ok hcs
    have hlow : (parseSign (stripSpaces s.data)).2.map asciiLower
        = (parseSign (stripSpaces s.data)).2 :=
      map_asciiLower_id (fun c hc => by
        have h' := htail c hc
        rw [Bool.and_eq_true] at h'
        simpa using h'.2)
    rw [hlow] at hp
    split at hp
    · rename_i hinf
      exfalso
      rcases hinf with hinf | hinf
      · have hmem : 'i' ∈ (parseSign (stripSpaces s.data)).2 := by
          rw [hinf]
          decide
        exact absurd (htail _ hmem) (by decide)
      · have hmem : 'i' ∈ (parseSign (stripSpaces s.data)).2 := by
          rw [hinf]
          decide
        exact absurd (htail _ hmem) (by decide)
    · split at hp
      · rename_i hnan
        exfalso
        have hmem : 'n' ∈ (parseSign (stripSpaces s.data)).2 := by
          rw [hnan]
          decide
        exact absurd (htail _ hmem) (by decide)
      · split at hp
        · exact absurd hp (by simp)
        · rename_i q hq
          have hlcs : (parseSign (stripSpaces s.data)).2.length ≤ 308 := by
            have hl1 := parseSign_snd_length_le (stripSpaces s.data)
            have hl2 := stripSpaces_length_le s.data
            omega
          have halpha : ∀ c ∈ (parseSign (stripSpaces s.data)).2,
              isAsciiAlpha c = false := by
            intro c hc
            have h' := htail c hc
            rw [Bool.and_eq_true] at h'
            simpa using h'.2
          have hqlt : q < overflowBound := by
            have hb1 := parseFinite_lt_of_no_alpha hq halpha
            have hb2 : ((10 ^ (parseSign (stripSpaces s.data)).2.length : ℕ) : ℚ)
                ≤ ((overflowBoundN : ℕ) : ℚ) := by
              rw [Nat.cast_le]
              calc (10 : ℕ) ^ (parseSign (stripSpaces s.data)).2.length
                  ≤ 10 ^ 308 := Nat.pow_le_pow_right (by norm_num) hlcs
                _ ≤ overflowBoundN := by decide
            rw [overflowBound_eq]
            exact lt_of_lt_of_le hb1 hb2
          split at hp
          · rename_i hovf
            exact absurd hovf (not_le.mpr hqlt)
          · rw [Option.some_inj] at hp
            subst hp
            simp only [isNonNegFinite, hsign, Bool.false_eq_true, if_false]
            exact decide_eq_true (parseFinite_nonneg hq)

lemma priceFieldOk_parsedPrice {s : String} {p : PyFloat}
    (hok : priceFieldOk s = true) (hlen : s.data.length ≤ 308)
    (hp : parsedPrice s = some p) :
    isNonNegFinite p = true := by
  unfold parsedPrice at hp
  split at hp
  · rw [Option.some_inj] at hp
    subst hp
    decide
  · refine pyFloat_nonneg_of_ok (okChar_commaToDot hok) ?_ hp
    have he : (commaToDot s).data.length = s.data.length := by
      show (s.data.map _).length = s.data.length
      exact List.length_map _ _
    omega

/-! ### Further helper lemmas -/

lemma commaToDot_idem (s : String) :
    commaToDot (commaToDot s) = commaToDot s := by
  unfold commaToDot
  refine congrArg String.mk ?_
  show ((s.data.map fun c => if c = ',' then '.' else c).map
      fun c => if c = ',' then '.' else c)
    = s.data.map fun c => if c = ',' then '.' else c
  rw [List.map_map]
  refine List.map_congr_left ?_
  intro a _
  by_cases h : a = ','
  · simp [h]
  · simp [h]

lemma conceptOfLine_inv {l : String} {versionId : Nat} {k : String}
    {con : Concept} (h : conceptOfLine l versionId = some (k, con)) :
    k = (lineParts l).getD 0 "" ∧ k ≠ ""
      ∧ con = ⟨(lineParts l).getD 2 "", (lineParts l).getD 1 "",
          con.price, 1, versionId⟩
      ∧ parsedPrice ((lineParts l).getD 3 "") = some con.price := by
  simp only [conceptOfLine, lineParts] at h ⊢
  split at h
  · split at h
    · split at h
      · exact absurd h (by simp)
      · rename_i h3
        split at h
        · rename_i price hq
          rw [Option.some_inj] at h
          cases h
          exact ⟨rfl, h3, rfl, hq⟩
        · exact absurd h (by simp)
    · exact absurd h (by simp)
  · exact absurd h (by simp)

lemma processLine_not_marker {versionId : Nat} {st : ExtractState}
    {l : String} (h : ¬ (pyStrip l).data.take 3 = ['~', 'C', '|']) :
    processLine versionId st l = st := by
  simp only [processLine]
  rw [if_neg h]

lemma extractFrom_no_marker {versionId : Nat} {lines : List String}
    {init : ExtractState}
    (h : ∀ l ∈ lines, ¬ (pyStrip l).data.take 3 = ['~', 'C', '|']) :
    extractFrom versionId init lines = init := by
  induction lines with
  | nil => rfl
  | cons l ls ih =>
    rw [extractFrom_cons,
      processLine_not_marker (h l (List.mem_cons_self _ _))]
    exact ih (fun l' hl' => h l' (List.mem_cons_of_mem _ hl'))

/-! ### Claim theorems -/

/-- C1 (amended): every concept stored by the extractor is keyed by a
non-empty code (empty-code lines are skipped); and whenever every
line's price field is free of minus signs and letters and is at most
308 characters long — plain decimal numerals of ordinary length
qualify, and empty fields parse as 0.0 — every stored price is a
finite non-negative number.  Without those conditions the price is
whatever Python float parsing yields: negative for a signed field
such as "-5", infinite for an "inf" literal or for a numeral at or
beyond the IEEE double overflow threshold (about 1.8e308, e.g. four
hundred nines). -/
theorem c1_concept_invariants (lines : List String) (versionId : Nat) :
    (∀ kc ∈ prepareConceptsDict lines versionId, kc.1 ≠ "")
      ∧ ((∀ l ∈ lines, priceFieldOk ((lineParts l).getD 3 "") = true
            ∧ ((lineParts l).getD 3 "").data.length ≤ 308) →
          ∀ kc ∈ prepareConceptsDict lines versionId,
            isNonNegFinite kc.2.price = true) := by
  constructor
  · refine extractFrom_invariant (fun kc => kc.1 ≠ "") versionId lines
      ⟨[], []⟩ (by simp) ?_
    intro l hl kv hkv
    rcases kv with ⟨k, con⟩
    exact (conceptOfLine_inv hkv).2.1
  · intro hok
    refine extractFrom_invariant (fun kc => isNonNegFinite kc.2.price = true)
      versionId lines ⟨[], []⟩ (by simp) ?_
    intro l hl kv hkv
    rcases kv with ⟨k, con⟩
    exact priceFieldOk_parsedPrice (hok l hl).1 (hok l hl).2
      (conceptOfLine_inv hkv).2.2.2

/-- Witness for c1_concept_invariants on a one-line file with a plain
comma-decimal price. -/
theorem c1_concept_invariants_witness :
    (∀ kc ∈ prepareConceptsDict ["~C|A1|m2|Wall|12,50"] 2, kc.1 ≠ "")
      ∧ (∀ kc ∈ prepareConceptsDict ["~C|A1|m2|Wall|12,50"] 2,
          isNonNegFinite kc.2.price = true) :=
  ⟨(c1_concept_invariants ["~C|A1|m2|Wall|12,50"] 2).1,
   (c1_concept_invariants ["~C|A1|m2|Wall|12,50"] 2).2 (by decide)⟩

/-- C1 counterexample: the extractor stores a negative price: the line
"~C|A1|m2|Wall|-5" produces a concept priced at the negative number
-5, so a stored price is not always a finite non-negative number. -/
theorem c1_negative_price_counterexample :
    dictGet (prepareConceptsDict ["~C|A1|m2|Wall|-5"] 0) "A1"
        = some ⟨"Wall", "m2", PyFloat.finite (-5), 1, 0⟩
      ∧ isNonNegFinite (PyFloat.finite (-5)) = false := by
  decide

/-- C3: per-line structural problems never abort extraction (the
extractor is a total function; the only effect of a bad line is a log
entry): a marker line with fewer than four fields appends exactly one
warning diagnostic and leaves the table unchanged; a marker line with
at least four fields, a non-empty code, and a non-empty price field
that fails to parse appends exactly one error diagnostic and leaves
the table unchanged; and the extraction fold always continues with the
remaining lines whatever a line did. -/
theorem c3_per_line_resilience (versionId : Nat) (st : ExtractState)
    (lshort lbad : String) (rest : List String)
    (h1 : (pyStrip lshort).data.take 3 = ['~', 'C', '|'])
    (h2 : (lineParts lshort).length < 4)
    (g1 : (pyStrip lbad).data.take 3 = ['~', 'C', '|'])
    (g2 : 4 ≤ (lineParts lbad).length)
    (g3 : (lineParts lbad).getD 0 "" ≠ "")
    (g4 : (lineParts lbad).getD 3 "" ≠ "")
    (g5 : pyFloat (commaToDot ((lineParts lbad).getD 3 "")) = none) :
    processLine versionId st lshort
        = ⟨st.concepts, st.diags ++ [Diag.warning (pyStrip lshort)]⟩
      ∧ processLine versionId st lbad
        = ⟨st.concepts, st.diags ++ [Diag.error (pyStrip lbad)]⟩
      ∧ ∀ l : String, extractFrom versionId st (l :: rest)
          = extractFrom versionId (processLine versionId st l) rest := by
  refine ⟨?_, ?_, fun l => rfl⟩
  · simp only [lineParts] at h2
    simp only [processLine]
    rw [if_pos h1, if_neg (by omega)]
  · have gp : parsedPrice ((lineParts lbad).getD 3 "") = none := by
      unfold parsedPrice
      rw [if_neg g4]
      exact g5
    simp only [lineParts] at g2 g3 gp
    simp only [processLine]
    rw [if_pos g1, if_pos g2, if_neg g3, gp]

/-- Witness for c3_per_line_resilience: a three-field line and an
unparseable-price line each produce one diagnostic, no concept and no
abort, and the fold continues to the rest. -/
theorem c3_per_line_resilience_witness :
    processLine 0 ⟨[], []⟩ "~C|A2|m2|Bad"
        = ⟨[], [Diag.warning "~C|A2|m2|Bad"]⟩
      ∧ processLine 0 ⟨[], []⟩ "~C|A3|m2|Bad price|abc"
        = ⟨[], [Diag.error "~C|A3|m2|Bad price|abc"]⟩
      ∧ extractFrom 0 ⟨[], []⟩ ("~C|A2|m2|Bad" :: ["~C|A4|u|d|1"])
        = extractFrom 0 (processLine 0 ⟨[], []⟩ "~C|A2|m2|Bad")
            ["~C|A4|u|d|1"] := by
  have h := c3_per_line_resilience 0 ⟨[], []⟩ "~C|A2|m2|Bad"
    "~C|A3|m2|Bad price|abc" ["~C|A4|u|d|1"] (by decide) (by decide)
    (by decide) (by decide) (by decide) (by decide) (by decide)
  refine ⟨?_, ?_, h.2.2 _⟩
  · rw [h.1]
    decide
  · rw [h.2.1]
    decide

/-- C4: for every qualifying concept line (marker, at least four
fields, non-empty code, parseable price) the extractor maps field 0 to
the code key, field 1 to uom, field 2 to description, field 3 to the
price, and fixes the quantity at 1; the witness instantiates this at
the line "~C|A1|m2|Concrete wall|12,50". -/
theorem c4_field_mapping (versionId : Nat) (st : ExtractState) (l : String)
    (h1 : (pyStrip l).data.take 3 = ['~', 'C', '|'])
    (h2 : 4 ≤ (lineParts l).length)
    (h3 : (lineParts l).getD 0 "" ≠ "")
    (p : PyFloat) (h4 : parsedPrice ((lineParts l).getD 3 "") = some p) :
    processLine versionId st l
      = ⟨dictInsert st.concepts ((lineParts l).getD 0 "")
          ⟨(lineParts l).getD 2 "", (lineParts l).getD 1 "", p, 1, versionId⟩,
         st.diags⟩ := by
  simp only [lineParts] at h2 h3 h4 ⊢
  simp only [processLine]
  rw [if_pos h1, if_pos h2, if_neg h3, h4]

/-- Witness for c4_field_mapping: the spec's example line yields
exactly one concept with code "A1", uom "m2", description
"Concrete wall", price 12.50 and quantity 1. -/
theorem c4_field_mapping_witness :
    prepareConceptsDict ["~C|A1|m2|Concrete wall|12,50"] 7
      = [("A1", ⟨"Concrete wall", "m2", PyFloat.finite (mkRat 25 2), 1, 7⟩)] := by
  have h := c4_field_mapping 7 ⟨[], []⟩ "~C|A1|m2|Concrete wall|12,50"
    (by decide) (by decide) (by decide) (PyFloat.finite (mkRat 25 2)) (by decide)
  show (processLine 7 ⟨[], []⟩ "~C|A1|m2|Concrete wall|12,50").concepts = _
  rw [h]
  decide

/-- C5: price parsing first replaces every comma by a dot, so a field
and its comma-to-dot rewriting always parse identically — "1,50" and
"1.50" both parse to exactly 1.50 — and an empty price field yields
price 0.0 rather than an error or a skipped line. -/
theorem c5_comma_equals_dot (s : String) :
    parsedPrice s = parsedPrice (commaToDot s)
      ∧ parsedPrice "1,50" = some (PyFloat.finite (mkRat 3 2))
      ∧ parsedPrice "1.50" = some (PyFloat.finite (mkRat 3 2))
      ∧ parsedPrice "" = some (PyFloat.finite 0)
      ∧ prepareConceptsDict ["~C|A1|m2|Wall|"] 5
          = [("A1", ⟨"Wall", "m2", PyFloat.finite 0, 1, 5⟩)] := by
  refine ⟨?_, by decide, by decide, by decide, by decide⟩
  unfold parsedPrice
  by_cases hs : s = ""
  · subst hs
    rfl
  · have hne : commaToDot s ≠ "" := by
      intro h
      apply hs
      have hd : s.data.map (fun c => if c = ',' then '.' else c) = [] :=
        congrArg String.data h
      rw [List.map_eq_nil_iff] at hd
      cases s
      simp_all
    rw [if_neg hs, if_neg hne, commaToDot_idem]

/-- C6: the last occurrence of a code in file order wins: when a line
inserting code c with concept con is followed only by lines that do
not insert code c, the resulting table maps c to con; and every code
occurs at most once in the table. -/
theorem c6_last_occurrence_wins (lines₁ lines₂ : List String) (l : String)
    (versionId : Nat) (c : String) (con : Concept)
    (h1 : conceptOfLine l versionId = some (c, con))
    (h2 : ∀ l' ∈ lines₂,
      (conceptOfLine l' versionId).map Prod.fst ≠ some c) :
    dictGet (prepareConceptsDict (lines₁ ++ l :: lines₂) versionId) c
        = some con
      ∧ ((prepareConceptsDict (lines₁ ++ l :: lines₂) versionId).map
          Prod.fst).count c ≤ 1 := by
  constructor
  · show dictGet (extractFrom versionId ⟨[], []⟩ (lines₁ ++ l :: lines₂)).concepts c = _
    rw [extractFrom_append, extractFrom_cons,
      dictGet_extractFrom_stable versionId c lines₂ _ h2,
      processLine_concepts_of_some h1]
    exact dictGet_dictInsert_self _ _ _
  · exact List.nodup_iff_count_le_one.mp
      (nodup_keys_extractFrom versionId (lines₁ ++ l :: lines₂) ⟨[], []⟩
        (by simp)) c

/-- Witness for c6_last_occurrence_wins: two lines with code "A1" and
different data, followed by an unrelated line; the table holds exactly
one "A1" concept, equal to the later line's data. -/
theorem c6_last_occurrence_wins_witness :
    dictGet (prepareConceptsDict
        ["~C|A1|m2|first|1", "~C|A1|m2|second|2", "~C|B1|u|x|3"] 0) "A1"
        = some ⟨"second", "m2", PyFloat.finite 2, 1, 0⟩
      ∧ ((prepareConceptsDict
          ["~C|A1|m2|first|1", "~C|A1|m2|second|2", "~C|B1|u|x|3"] 0).map
          Prod.fst).count "A1" ≤ 1 :=
  c6_last_occurrence_wins ["~C|A1|m2|first|1"] ["~C|B1|u|x|3"]
    "~C|A1|m2|second|2" 0 "A1" ⟨"second", "m2", PyFloat.finite 2, 1, 0⟩
    (by decide) (by decide)

/-- C10: the extractor strips only the whole line, never single
fields: the stored key is field 0 verbatim and the stored uom and
description are fields 1 and 2 verbatim, whitespace included; a code
of pure whitespace is non-empty and keys a table entry (witness). -/
theorem c10_fields_not_trimmed (versionId : Nat) (st : ExtractState)
    (l : String)
    (h1 : (pyStrip l).data.take 3 = ['~', 'C', '|'])
    (h2 : 4 ≤ (lineParts l).length)
    (h3 : (lineParts l).getD 0 "" ≠ "")
    (p : PyFloat) (h4 : parsedPrice ((lineParts l).getD 3 "") = some p) :
    dictGet (processLine versionId st l).concepts ((lineParts l).getD 0 "")
      = some ⟨(lineParts l).getD 2 "", (lineParts l).getD 1 "", p, 1,
          versionId⟩ := by
  simp only [lineParts] at h2 h3 h4 ⊢
  simp only [processLine]
  rw [if_pos h1, if_pos h2, if_neg h3, h4]
  exact dictGet_dictInsert_self _ _ _

/-- Witness for c10_fields_not_trimmed: a line whose code field is two
spaces and whose description has surrounding spaces produces an entry
keyed by the two-space string with the spaces kept in every field. -/
theorem c10_fields_not_trimmed_witness :
    dictGet (processLine 3 ⟨[], []⟩ "~C|  |m2| desc |5").concepts "  "
      = some ⟨" desc ", "m2", PyFloat.finite 5, 1, 3⟩ := by
  have h := c10_fields_not_trimmed 3 ⟨[], []⟩ "~C|  |m2| desc |5"
    (by decide) (by decide) (by decide) (PyFloat.finite 5) (by decide)
  have e0 : (lineParts "~C|  |m2| desc |5").getD 0 "" = "  " := by decide
  have e1 : (lineParts "~C|  |m2| desc |5").getD 1 "" = "m2" := by decide
  have e2 : (lineParts "~C|  |m2| desc |5").getD 2 "" = " desc " := by decide
  rw [e0, e1, e2] at h
  exact h

/-- C2 (amended): when no file is supplied (the binary field is unset
or empty) the import fails with the missing-input error before any
decoding, extraction or order creation — no order, order line, product
or unit of measure is created — but a version record is created first,
because `action_import` creates it before calling the file check; its
persistence is then a matter of the host transaction's rollback, which
is outside this core. -/
theorem c2_missing_file (db : DB) (w : Wizard)
    (h : w.bc3_file = none ∨ w.bc3_file = some []) :
    actionImport db w = .error (ImportError.missingInput,
      { db with
        versions := db.versions
          ++ [⟨db.nextId, orFalsy w.bc3_filename "BC3 Import"⟩]
        nextId := db.nextId + 1 }) := by
  have hg : getDataFromFile w = .error ImportError.missingInput := by
    rcases h with h | h <;> simp [getDataFromFile, h]
  simp only [actionImport]
  rw [hg]

/-- Witness for c2_missing_file on an empty database. -/
theorem c2_missing_file_witness :
    actionImport ⟨[], 0, [], [], [], [], 5⟩ ⟨none, some "f.bc3"⟩
      = .error (ImportError.missingInput,
          ⟨[], 0, [], [⟨5, "f.bc3"⟩], [], [], 6⟩) := by
  have h := c2_missing_file ⟨[], 0, [], [], [], [], 5⟩ ⟨none, some "f.bc3"⟩
    (Or.inl rfl)
  rw [h]
  decide

/-- C2 counterexample: with no file supplied, a version record is
created before the missing-file check fires: starting from an empty
database, the missing-input error state holds one new version record,
refuting "no record of any kind is created before the check". -/
theorem c2_record_before_check_counterexample :
    actionImport ⟨[], 0, [], [], [], [], 1⟩ ⟨none, none⟩
        = .error (ImportError.missingInput,
            ⟨[], 0, [], [⟨1, "BC3 Import"⟩], [], [], 2⟩)
      ∧ (⟨[], 0, [], [⟨1, "BC3 Import"⟩], [], [], 2⟩ : DB).versions ≠ [] := by
  decide

/-- C7: the decoder attempts windows-1252 first and utf-8 only when
windows-1252 fails: a windows-1252-decodable input's result depends
only on that first decode, so it is never re-validated against utf-8;
when both decodes fail the decoding error is raised; and empty input
yields the empty line sequence, not an error. -/
theorem c7_decoder_fallback_order :
    (∀ data text, decodeWindows1252 data = some text →
        decode data = .ok (pySplitlines text))
      ∧ (∀ data text, decodeWindows1252 data = none →
          decodeUtf8 data = some text →
            decode data = .ok (pySplitlines text))
      ∧ (∀ data, decodeWindows1252 data = none → decodeUtf8 data = none →
          decode data = .error ImportError.decodingError)
      ∧ decode [] = .ok [] := by
  refine ⟨?_, ?_, ?_, rfl⟩
  · intro data text h
    unfold decode
    rw [h]
  · intro data text h1 h2
    unfold decode
    rw [h1, h2]
  · intro data h1 h2
    unfold decode
    rw [h1, h2]

/-- Witness for c7_decoder_fallback_order: the bytes C3 A9 are valid
under both encodings (utf-8 would read them as "é") yet decode as the
windows-1252 text "Ã©" because the first success wins; the lone byte
81 is valid under neither and raises the decoding error. -/
theorem c7_decoder_fallback_order_witness :
    (decodeWindows1252 [0xC3, 0xA9] = some ['Ã', '©']
      ∧ decodeUtf8 [0xC3, 0xA9] = some ['é']
      ∧ decode [0xC3, 0xA9] = .ok ["Ã©"])
      ∧ (decodeWindows1252 [0x81] = none ∧ decodeUtf8 [0x81] = none
          ∧ decode [0x81] = .error ImportError.decodingError) := by
  refine ⟨⟨by decide, by decide, ?_⟩, ⟨by decide, by decide, ?_⟩⟩
  · exact (c7_decoder_fallback_order.1 [0xC3, 0xA9] ['Ã', '©']
      (by decide)).trans (by decide)
  · exact c7_decoder_fallback_order.2.2.1 [0x81] (by decide) (by decide)

/-- C8: when the file reads and decodes but extraction yields an empty
concepts dict, the import fails with the no-valid-data error, raised
before the order header is created: the final database differs from
the initial one only by the version record created at the start — no
order, order line, product or unit exists. -/
theorem c8_empty_table_aborts (db : DB) (w : Wizard) (lines : List String)
    (h1 : getDataFromFile w = .ok lines)
    (h2 : prepareConceptsDict lines db.nextId = []) :
    actionImport db w = .error (ImportError.noValidData,
      { db with
        versions := db.versions
          ++ [⟨db.nextId, orFalsy w.bc3_filename "BC3 Import"⟩]
        nextId := db.nextId + 1 }) := by
  simp only [actionImport, h1]
  rw [h2]
  rfl

/-- Witness for c8_empty_table_aborts: the two-byte ascii file "hi"
has no marker line, extraction is empty, and the import stops with the
no-valid-data error and no order. -/
theorem c8_empty_table_aborts_witness :
    actionImport ⟨[], 0, [], [], [], [], 1⟩ ⟨some [104, 105], some "f.bc3"⟩
      = .error (ImportError.noValidData,
          ⟨[], 0, [], [⟨1, "f.bc3"⟩], [], [], 2⟩) := by
  have h := c8_empty_table_aborts ⟨[], 0, [], [], [], [], 1⟩
    ⟨some [104, 105], some "f.bc3"⟩ ["hi"] (by decide) (by decide)
  rw [h]
  decide

/-- C9: unit-of-measure resolution returns the id of the first unit
whose name equals the concept's uom and falls back to the default
"unit" reference when none matches; it never creates a unit (the uoms
list is unchanged); catalog-item resolution, asymmetrically, creates a
service product when the lookup by reference code misses. -/
theorem c9_uom_resolution (db : DB) (con : Concept) (oid : Nat) :
    ((prepareSaleOrderLineFromConcept db con oid).1.uoms = db.uoms)
      ∧ ((prepareSaleOrderLineFromConcept db con oid).2.product_uom
          = resolvedUomId db con.uom)
      ∧ (∀ u, db.uoms.find? (fun r => r.name == con.uom) = some u →
          resolvedUomId db con.uom = u.id)
      ∧ (db.uoms.find? (fun r => r.name == con.uom) = none →
          resolvedUomId db con.uom = db.defaultUomId)
      ∧ (db.products.find? (fun p => p.default_code == con.description)
            = none →
          (prepareSaleOrderLineFromConcept db con oid).1.products
            = db.products ++ [⟨db.nextId, con.description, con.description,
                "service", resolvedUomId db con.uom,
                resolvedUomId db con.uom, con.price⟩]) := by
  refine ⟨?_, ?_, ?_, ?_, ?_⟩
  · simp only [prepareSaleOrderLineFromConcept]
    split
    · rfl
    · rfl
  · simp only [prepareSaleOrderLineFromConcept]
    split
    · rfl
    · rfl
  · intro u hu
    simp only [resolvedUomId, hu]
  · intro hu
    simp only [resolvedUomId, hu]
  · intro hp
    simp only [prepareSaleOrderLineFromConcept, hp]

/-- Witness for c9_uom_resolution: with one unit "m2" of id 3 and
default id 1, a concept in "m2" resolves to 3, a concept in "kg" falls
back to 1, the uoms list is unchanged, and the missing product
"Wall" is created as a service item. -/
theorem c9_uom_resolution_witness :
    ((prepareSaleOrderLineFromConcept ⟨[⟨3, "m2"⟩], 1, [], [], [], [], 10⟩
        ⟨"Wall", "m2", PyFloat.finite 5, 1, 0⟩ 42).1.uoms = [⟨3, "m2"⟩]
      ∧ (prepareSaleOrderLineFromConcept ⟨[⟨3, "m2"⟩], 1, [], [], [], [], 10⟩
          ⟨"Wall", "m2", PyFloat.finite 5, 1, 0⟩ 42).2.product_uom = 3)
      ∧ (prepareSaleOrderLineFromConcept ⟨[⟨3, "m2"⟩], 1, [], [], [], [], 10⟩
          ⟨"Wall", "kg", PyFloat.finite 5, 1, 0⟩ 42).2.product_uom = 1
      ∧ (prepareSaleOrderLineFromConcept ⟨[⟨3, "m2"⟩], 1, [], [], [], [], 10⟩
          ⟨"Wall", "m2", PyFloat.finite 5, 1, 0⟩ 42).1.products
        = [⟨10, "Wall", "Wall", "service", 3, 3, PyFloat.finite 5⟩] := by
  have hA := c9_uom_resolution ⟨[⟨3, "m2"⟩], 1, [], [], [], [], 10⟩
    ⟨"Wall", "m2", PyFloat.finite 5, 1, 0⟩ 42
  have hB := c9_uom_resolution ⟨[⟨3, "m2"⟩], 1, [], [], [], [], 10⟩
    ⟨"Wall", "kg", PyFloat.finite 5, 1, 0⟩ 42
  refine ⟨⟨hA.1, ?_⟩, ?_, ?_⟩
  · rw [hA.2.1]
    exact hA.2.2.1 ⟨3, "m2"⟩ (by decide)
  · rw [hB.2.1]
    exact hB.2.2.2.1 (by decide)
  · rw [hA.2.2.2.2 (by decide)]
    decide

end BC3Import
